import Mathlib

/-!
Shallow embedding of the Bezier geometry and curve-fitting core of the
`houjing` repository (crate `houjing-bezier`), together with proofs settling
the frozen claims about it.

Conventions of the embedding:
* `f64` values are modelled as real numbers (`ℝ`); float literals such as
  `1e-3` denote the exact rationals they stand for in the source.
* Rust division by zero yields NaN/inf; Lean real division by zero yields 0.
  Every claim settled here is settled the same way under both conventions,
  and each point where this matters is noted at its definition or proof.
* A Rust `panic!` / failed `assert!` / out-of-bounds index is modelled by
  `Option.none` (the function returns no value); a `BezierResult` is
  modelled by `Except String`, carrying the source's error message.
* The thread-local random generator used by the weak-variable-projection
  fit is modelled by an explicitly passed stream `noise : ℕ → ℝ` of the
  Normal samples it would produce, consumed in drawing order.
-/

namespace Houjing

noncomputable section

/-- 2D point with `f64` coordinates (`data/point.rs`), coordinates in ℝ. -/
structure Point where
  x : ℝ
  y : ℝ

@[ext] theorem Point.ext' {a b : Point} (hx : a.x = b.x) (hy : a.y = b.y) : a = b := by
  cases a; cases b; simp_all

instance : Add Point := ⟨fun a b => ⟨a.x + b.x, a.y + b.y⟩⟩

instance : Sub Point := ⟨fun a b => ⟨a.x - b.x, a.y - b.y⟩⟩

@[simp] theorem Point.add_x (a b : Point) : (a + b).x = a.x + b.x := rfl

@[simp] theorem Point.add_y (a b : Point) : (a + b).y = a.y + b.y := rfl

@[simp] theorem Point.sub_x (a b : Point) : (a - b).x = a.x - b.x := rfl

@[simp] theorem Point.sub_y (a b : Point) : (a - b).y = a.y - b.y := rfl

/-- `Point * f64` (`impl Mul<f64> for Point`). -/
def Point.mulScalar (p : Point) (k : ℝ) : Point := ⟨p.x * k, p.y * k⟩

/-- `f64 * Point` (`impl Mul<Point> for f64`). -/
def Point.smul (k : ℝ) (p : Point) : Point := ⟨k * p.x, k * p.y⟩

/-- `Point / f64` (`impl Div<f64> for Point`). -/
def Point.divScalar (p : Point) (k : ℝ) : Point := ⟨p.x / k, p.y / k⟩

@[simp] theorem Point.mulScalar_x (p : Point) (k : ℝ) : (p.mulScalar k).x = p.x * k := rfl

@[simp] theorem Point.mulScalar_y (p : Point) (k : ℝ) : (p.mulScalar k).y = p.y * k := rfl

@[simp] theorem Point.smul_x (k : ℝ) (p : Point) : (Point.smul k p).x = k * p.x := rfl

@[simp] theorem Point.smul_y (k : ℝ) (p : Point) : (Point.smul k p).y = k * p.y := rfl

@[simp] theorem Point.divScalar_x (p : Point) (k : ℝ) : (p.divScalar k).x = p.x / k := rfl

@[simp] theorem Point.divScalar_y (p : Point) (k : ℝ) : (p.divScalar k).y = p.y / k := rfl

/-- `Point::distance` — Euclidean distance, `((dx*dx + dy*dy)).sqrt()`. -/
def Point.distance (p q : Point) : ℝ :=
  Real.sqrt ((p.x - q.x) * (p.x - q.x) + (p.y - q.y) * (p.y - q.y))

/-- `Point::length` — `(x*x + y*y).sqrt()`. -/
def Point.length (p : Point) : ℝ := Real.sqrt (p.x * p.x + p.y * p.y)

/-- `Point::lerp` — linear interpolation between two points. -/
def Point.lerp (p q : Point) (t : ℝ) : Point :=
  ⟨p.x + t * (q.x - p.x), p.y + t * (q.y - p.y)⟩

/-- `f64::atan2(y, x)` on finite inputs, written out by quadrant with
`Real.arctan`; `atan2(0, 0) = 0` as for IEEE `+0` arguments. -/
def atan2 (y x : ℝ) : ℝ :=
  if 0 < x then Real.arctan (y / x)
  else if x < 0 then
    (if 0 ≤ y then Real.arctan (y / x) + Real.pi else Real.arctan (y / x) - Real.pi)
  else
    (if 0 < y then Real.pi / 2 else if y < 0 then -(Real.pi / 2) else 0)

/-- `Point::to_angle` — `y.atan2(x)`. -/
def Point.toAngle (p : Point) : ℝ := atan2 p.y p.x

/-- Scaling both arguments of `atan2` by a positive factor leaves it unchanged. -/
theorem atan2_smul_pos {k : ℝ} (hk : 0 < k) (y x : ℝ) : atan2 (k * y) (k * x) = atan2 y x := by
  unfold atan2
  have hx : 0 < k * x ↔ 0 < x := by
    constructor
    · intro h; nlinarith
    · intro h; positivity
  have hx' : k * x < 0 ↔ x < 0 := by
    constructor
    · intro h; nlinarith
    · intro h; nlinarith
  have hy0 : 0 ≤ k * y ↔ 0 ≤ y := by
    constructor
    · intro h; nlinarith
    · intro h; positivity
  have hy1 : 0 < k * y ↔ 0 < y := by
    constructor
    · intro h; nlinarith
    · intro h; positivity
  have hy2 : k * y < 0 ↔ y < 0 := by
    constructor
    · intro h; nlinarith
    · intro h; nlinarith
  have hdiv : k * y / (k * x) = y / x := mul_div_mul_left y x (ne_of_gt hk)
  simp only [hdiv]
  by_cases h1 : 0 < x
  · rw [if_pos h1, if_pos (hx.mpr h1)]
  · rw [if_neg h1, if_neg (fun h => h1 (hx.mp h))]
    by_cases h2 : x < 0
    · rw [if_pos h2, if_pos (hx'.mpr h2)]
      by_cases h3 : 0 ≤ y
      · rw [if_pos h3, if_pos (hy0.mpr h3)]
      · rw [if_neg h3, if_neg (fun h => h3 (hy0.mp h))]
    · rw [if_neg h2, if_neg (fun h => h2 (hx'.mp h))]
      by_cases h3 : 0 < y
      · rw [if_pos h3, if_pos (hy1.mpr h3)]
      · rw [if_neg h3, if_neg (fun h => h3 (hy1.mp h))]
        by_cases h4 : y < 0
        · rw [if_pos h4, if_pos (hy2.mpr h4)]
        · rw [if_neg h4, if_neg (fun h => h4 (hy2.mp h))]

theorem Point.length_smul_of_nonneg {k : ℝ} (hk : 0 ≤ k) (v : Point) :
    (Point.smul k v).length = k * v.length := by
  unfold Point.length
  have : (Point.smul k v).x * (Point.smul k v).x + (Point.smul k v).y * (Point.smul k v).y
      = k * k * (v.x * v.x + v.y * v.y) := by simp [Point.smul]; ring
  rw [this, show k * k * (v.x * v.x + v.y * v.y) = k ^ 2 * (v.x * v.x + v.y * v.y) by ring,
    Real.sqrt_mul (sq_nonneg k), Real.sqrt_sq hk]

@[simp] theorem Point.length_zero : (Point.mk 0 0).length = 0 := by
  simp [Point.length]

theorem Point.length_pos_of_ne {v : Point} (h : v ≠ ⟨0, 0⟩) : 0 < v.length := by
  apply Real.sqrt_pos.mpr
  rcases eq_or_ne v.x 0 with hx | hx
  · rcases eq_or_ne v.y 0 with hy | hy
    · exact absurd (Point.ext' hx hy) h
    · nlinarith [mul_self_nonneg v.x, mul_self_pos.mpr hy]
  · nlinarith [mul_self_nonneg v.y, mul_self_pos.mpr hx]

@[simp] theorem Point.sub_self (p : Point) : p - p = Point.mk 0 0 := by
  ext <;> simp

theorem Point.lerp_sub_left (a b : Point) (t : ℝ) :
    a.lerp b t - a = Point.smul t (b - a) := by
  ext <;> simp [Point.lerp, Point.smul] <;> ring

theorem Point.sub_lerp_right (a b : Point) (t : ℝ) :
    b - a.lerp b t = Point.smul (1 - t) (b - a) := by
  ext <;> simp [Point.lerp, Point.smul] <;> ring

theorem Point.lerp_sub_right (a b : Point) (t : ℝ) :
    a.lerp b t - b = Point.smul (1 - t) (a - b) := by
  ext <;> simp [Point.lerp, Point.smul] <;> ring

theorem Point.sub_ne_zero_of_ne {a b : Point} (h : a ≠ b) : b - a ≠ Point.mk 0 0 := by
  intro hc
  apply h
  ext
  · have hx := congrArg Point.x hc
    simp only [Point.sub_x] at hx
    linarith
  · have hy := congrArg Point.y hc
    simp only [Point.sub_y] at hy
    linarith

/-! ## De Casteljau split (`modules/geometry/split.rs`) -/

/-- `split_linear_bezier_curve_segment`: split a line at `t`. -/
def split_linear_bezier_curve_segment (p0 p1 : Point) (t : ℝ) : List Point × List Point :=
  let split_point := p0.lerp p1 t
  ([p0, split_point], [split_point, p1])

/-- `split_quadratic_bezier_curve_segment`: one level of pairwise lerp, then the split point. -/
def split_quadratic_bezier_curve_segment (p0 p1 p2 : Point) (t : ℝ) :
    List Point × List Point :=
  let q0 := p0.lerp p1 t
  let q1 := p1.lerp p2 t
  let split_point := q0.lerp q1 t
  ([p0, q0, split_point], [split_point, q1, p2])

/-- `split_cubic_bezier_curve_segment`: two levels of pairwise lerp, then the split point. -/
def split_cubic_bezier_curve_segment (p0 p1 p2 p3 : Point) (t : ℝ) :
    List Point × List Point :=
  let q0 := p0.lerp p1 t
  let q1 := p1.lerp p2 t
  let q2 := p2.lerp p3 t
  let r0 := q0.lerp q1 t
  let r1 := q1.lerp q2 t
  let split_point := r0.lerp r1 t
  ([p0, q0, r0, split_point], [split_point, r1, q2, p3])

/-- `split_bezier_curve_segment_at_t`: dispatch on the number of control points;
any count outside 2/3/4 panics in the source, modelled as `none`. -/
def split_bezier_curve_segment_at_t (control_points : List Point) (t : ℝ) :
    Option (List Point × List Point) :=
  match control_points with
  | [p0, p1] => some (split_linear_bezier_curve_segment p0 p1 t)
  | [p0, p1, p2] => some (split_quadratic_bezier_curve_segment p0 p1 p2 t)
  | [p0, p1, p2, p3] => some (split_cubic_bezier_curve_segment p0 p1 p2 p3 t)
  | _ => none

/-! ## Merge, the inverse reconstruction (`modules/geometry/merge.rs`) -/

/-- `merge_split_linear_curves` on the four endpoint arguments.  The source
first handles the both-near-vertical case, then compares the two dy/dx slopes
within `1e-3`. -/
def merge_split_linear_curves (a0 a1 b0 b1 : Point) : Option (List Point) :=
  if |a1.x - a0.x| < 1e-3 ∧ |b1.x - b0.x| < 1e-3 then
    some [a0, b1]
  else
    let dy_dx_ratio_1 := (a1.y - a0.y) / (a1.x - a0.x)
    let dy_dx_ratio_2 := (b1.y - b0.y) / (b1.x - b0.x)
    if |dy_dx_ratio_1 - dy_dx_ratio_2| > 1e-3 then none
    else some [a0, b1]

/-- `merge_split_quadratic_curves`: angle check on `a2-a1` versus `b1-b0`,
then recover the split parameter and the interior control point. -/
def merge_split_quadratic_curves (a0 a1 a2 b0 b1 b2 : Point) : Option (List Point) :=
  let a1_to_a2 := a2 - a1
  let b0_to_b1 := b1 - b0
  if |a1_to_a2.toAngle - b0_to_b1.toAngle| > 1e-3 then none
  else
    let t := a1_to_a2.length / (a1_to_a2.length + b0_to_b1.length)
    let p1 := a0 + ((a1 - a0).mulScalar 1).divScalar t
    some [a0, p1, b2]

/-- `merge_split_cubic_curves`: angle check on `a3-a2` versus `b1-b0`, recover
`t`, cross-validate the shared interior point from both sides within `1e-3`,
then recover the two interior control points. -/
def merge_split_cubic_curves (a0 a1 a2 a3 b0 b1 b2 b3 : Point) : Option (List Point) :=
  let a2_to_a3 := a3 - a2
  let b0_to_b1 := b1 - b0
  if |a2_to_a3.toAngle - b0_to_b1.toAngle| > 1e-3 then none
  else
    let t := a2_to_a3.length / (a2_to_a3.length + b0_to_b1.length)
    let a12 := a1 + ((a2 - a1).mulScalar 1).divScalar t
    let b12 := b2 + ((b1 - b2).mulScalar 1).divScalar (1 - t)
    if (a12 - b12).length > 1e-3 then none
    else
      let p1 := a0 + ((a1 - a0).mulScalar 1).divScalar t
      let p2 := b3 + ((b2 - b3).mulScalar 1).divScalar (1 - t)
      some [a0, p1, p2, b3]

/-- `merge_split_bezier_curves`: equal length, C0 continuity within `1e-3`,
then the per-degree merge; degrees outside 2/3/4 give `None` (the source would
panic indexing an empty slice, also modelled as `none`). -/
def merge_split_bezier_curves (left_curve_points right_curve_points : List Point) :
    Option (List Point) :=
  if left_curve_points.length ≠ right_curve_points.length then none
  else if ((left_curve_points.getLast?.getD ⟨0, 0⟩) -
      (right_curve_points.head?.getD ⟨0, 0⟩)).length > 1e-3 then none
  else
    match left_curve_points, right_curve_points with
    | [a0, a1], [b0, b1] => merge_split_linear_curves a0 a1 b0 b1
    | [a0, a1, a2], [b0, b1, b2] => merge_split_quadratic_curves a0 a1 a2 b0 b1 b2
    | [a0, a1, a2, a3], [b0, b1, b2, b3] => merge_split_cubic_curves a0 a1 a2 a3 b0 b1 b2 b3
    | _, _ => none

/-! ## C2: shape and endpoint invariants of the split -/

/-- C2 — For control-point sequences of length 2, 3 or 4 and every `t`, the
split yields `left` and `right` of the same length as the input, `left`'s last
point is the very same value as `right`'s first point, `left` starts at the
original first control point and `right` ends at the original last one. -/
theorem split_shape_invariants (cps : List Point) (t : ℝ)
    (h : cps.length = 2 ∨ cps.length = 3 ∨ cps.length = 4) :
    ∃ l r, split_bezier_curve_segment_at_t cps t = some (l, r) ∧
      l.length = cps.length ∧ r.length = cps.length ∧
      l.getLast? = r.head? ∧ l.head? = cps.head? ∧ r.getLast? = cps.getLast? := by
  match cps, h with
  | [p0, p1], _ =>
    refine ⟨_, _, rfl, ?_⟩
    simp [split_linear_bezier_curve_segment]
  | [p0, p1, p2], _ =>
    refine ⟨_, _, rfl, ?_⟩
    simp [split_quadratic_bezier_curve_segment]
  | [p0, p1, p2, p3], _ =>
    refine ⟨_, _, rfl, ?_⟩
    simp [split_cubic_bezier_curve_segment]

/-! ## C1: merge of a split reconstructs the original (nondegenerate case) -/

theorem Point.toAngle_smul_pos {k : ℝ} (hk : 0 < k) (v : Point) :
    (Point.smul k v).toAngle = v.toAngle := by
  unfold Point.toAngle
  simpa using atan2_smul_pos hk v.y v.x

theorem merge_split_linear_curves_spec (p0 p1 : Point) (t : ℝ) (h0 : 0 < t) (h1 : t < 1) :
    merge_split_linear_curves p0 (p0.lerp p1 t) (p0.lerp p1 t) p1 = some [p0, p1] := by
  have hax : (p0.lerp p1 t).x - p0.x = t * (p1.x - p0.x) := by simp [Point.lerp]
  have hbx : p1.x - (p0.lerp p1 t).x = (1 - t) * (p1.x - p0.x) := by simp [Point.lerp]; ring
  have hay : (p0.lerp p1 t).y - p0.y = t * (p1.y - p0.y) := by simp [Point.lerp]
  have hby : p1.y - (p0.lerp p1 t).y = (1 - t) * (p1.y - p0.y) := by simp [Point.lerp]; ring
  unfold merge_split_linear_curves
  by_cases hv : |(p0.lerp p1 t).x - p0.x| < 1e-3 ∧ |p1.x - (p0.lerp p1 t).x| < 1e-3
  · rw [if_pos hv]
  · rw [if_neg hv]
    have hdx : p1.x - p0.x ≠ 0 := by
      intro hdx
      exact hv ⟨by rw [hax, hdx]; norm_num, by rw [hbx, hdx]; norm_num⟩
    have hr1 : ((p0.lerp p1 t).y - p0.y) / ((p0.lerp p1 t).x - p0.x)
        = (p1.y - p0.y) / (p1.x - p0.x) := by
      rw [hax, hay]; exact mul_div_mul_left _ _ (ne_of_gt h0)
    have hr2 : (p1.y - (p0.lerp p1 t).y) / (p1.x - (p0.lerp p1 t).x)
        = (p1.y - p0.y) / (p1.x - p0.x) := by
      rw [hbx, hby]; exact mul_div_mul_left _ _ (by linarith)
    rw [if_neg]
    rw [hr1, hr2]
    norm_num

theorem merge_split_quadratic_curves_spec (p0 p1 p2 : Point) (t : ℝ)
    (h0 : 0 < t) (h1 : t < 1) (hnd : p0.lerp p1 t ≠ p1.lerp p2 t) :
    merge_split_quadratic_curves p0 (p0.lerp p1 t)
      ((p0.lerp p1 t).lerp (p1.lerp p2 t) t)
      ((p0.lerp p1 t).lerp (p1.lerp p2 t) t) (p1.lerp p2 t) p2 = some [p0, p1, p2] := by
  have h1' : (0 : ℝ) < 1 - t := by linarith
  have hv : p1.lerp p2 t - p0.lerp p1 t ≠ Point.mk 0 0 := Point.sub_ne_zero_of_ne hnd
  have hL : 0 < (p1.lerp p2 t - p0.lerp p1 t).length := Point.length_pos_of_ne hv
  have hA : (p0.lerp p1 t).lerp (p1.lerp p2 t) t - p0.lerp p1 t
      = Point.smul t (p1.lerp p2 t - p0.lerp p1 t) := Point.lerp_sub_left _ _ _
  have hB : p1.lerp p2 t - (p0.lerp p1 t).lerp (p1.lerp p2 t) t
      = Point.smul (1 - t) (p1.lerp p2 t - p0.lerp p1 t) := Point.sub_lerp_right _ _ _
  have ht : t ≠ 0 := ne_of_gt h0
  have hrat : t * (p1.lerp p2 t - p0.lerp p1 t).length
      / (t * (p1.lerp p2 t - p0.lerp p1 t).length
        + (1 - t) * (p1.lerp p2 t - p0.lerp p1 t).length) = t := by
    rw [show t * (p1.lerp p2 t - p0.lerp p1 t).length
        + (1 - t) * (p1.lerp p2 t - p0.lerp p1 t).length
        = (p1.lerp p2 t - p0.lerp p1 t).length by ring,
      mul_div_assoc, div_self (ne_of_gt hL), mul_one]
  have hrec : p0 + ((p0.lerp p1 t - p0).mulScalar 1).divScalar t = p1 := by
    rw [Point.lerp_sub_left]
    ext
    · simp
      field_simp
    · simp
      field_simp
  unfold merge_split_quadratic_curves
  rw [hA, hB]
  simp only []
  rw [Point.toAngle_smul_pos h0, Point.toAngle_smul_pos h1']
  rw [if_neg (by rw [sub_self, abs_zero]; norm_num)]
  simp only [Point.length_smul_of_nonneg (le_of_lt h0),
    Point.length_smul_of_nonneg (le_of_lt h1'), hrat, hrec]

theorem merge_split_cubic_curves_spec (p0 p1 p2 p3 : Point) (t : ℝ)
    (h0 : 0 < t) (h1 : t < 1)
    (hnd : (p0.lerp p1 t).lerp (p1.lerp p2 t) t ≠ (p1.lerp p2 t).lerp (p2.lerp p3 t) t) :
    merge_split_cubic_curves p0 (p0.lerp p1 t) ((p0.lerp p1 t).lerp (p1.lerp p2 t) t)
      (((p0.lerp p1 t).lerp (p1.lerp p2 t) t).lerp ((p1.lerp p2 t).lerp (p2.lerp p3 t) t) t)
      (((p0.lerp p1 t).lerp (p1.lerp p2 t) t).lerp ((p1.lerp p2 t).lerp (p2.lerp p3 t) t) t)
      ((p1.lerp p2 t).lerp (p2.lerp p3 t) t) (p2.lerp p3 t) p3 = some [p0, p1, p2, p3] := by
  have h1' : (0 : ℝ) < 1 - t := by linarith
  set q0 := p0.lerp p1 t with hq0
  set q1 := p1.lerp p2 t with hq1
  set q2 := p2.lerp p3 t with hq2
  set r0 := q0.lerp q1 t with hr0
  set r1 := q1.lerp q2 t with hr1
  have hv : r1 - r0 ≠ Point.mk 0 0 := Point.sub_ne_zero_of_ne hnd
  have hL : 0 < (r1 - r0).length := Point.length_pos_of_ne hv
  have hA : r0.lerp r1 t - r0 = Point.smul t (r1 - r0) := Point.lerp_sub_left _ _ _
  have hB : r1 - r0.lerp r1 t = Point.smul (1 - t) (r1 - r0) := Point.sub_lerp_right _ _ _
  have ht : t ≠ 0 := ne_of_gt h0
  have ht1 : (1 : ℝ) - t ≠ 0 := ne_of_gt h1'
  have hrat : t * (r1 - r0).length / (t * (r1 - r0).length + (1 - t) * (r1 - r0).length)
      = t := by
    rw [show t * (r1 - r0).length + (1 - t) * (r1 - r0).length = (r1 - r0).length by ring,
      mul_div_assoc, div_self (ne_of_gt hL), mul_one]
  have hcrossA : q0 + ((r0 - q0).mulScalar 1).divScalar t = q1 := by
    rw [show r0 - q0 = Point.smul t (q1 - q0) from Point.lerp_sub_left _ _ _]
    ext
    · simp
      field_simp
    · simp
      field_simp
  have hcrossB : q2 + ((r1 - q2).mulScalar 1).divScalar (1 - t) = q1 := by
    rw [show r1 - q2 = Point.smul (1 - t) (q1 - q2) from Point.lerp_sub_right q1 q2 t]
    ext
    · simp
      field_simp
    · simp
      field_simp
  have hrec1 : p0 + ((q0 - p0).mulScalar 1).divScalar t = p1 := by
    rw [hq0, Point.lerp_sub_left]
    ext
    · simp
      field_simp
    · simp
      field_simp
  have hrec2 : p3 + ((q2 - p3).mulScalar 1).divScalar (1 - t) = p2 := by
    rw [hq2, Point.lerp_sub_right]
    ext
    · simp
      field_simp
    · simp
      field_simp
  unfold merge_split_cubic_curves
  rw [hA, hB]
  simp only []
  rw [Point.toAngle_smul_pos h0, Point.toAngle_smul_pos h1']
  rw [if_neg (by rw [sub_self, abs_zero]; norm_num)]
  simp only [Point.length_smul_of_nonneg (le_of_lt h0),
    Point.length_smul_of_nonneg (le_of_lt h1'), hrat, hcrossA, hcrossB]
  rw [if_neg (by rw [Point.sub_self, Point.length_zero]; norm_num)]
  simp only [hrec1, hrec2]

/-- Nondegeneracy of a split: at the split parameter, the two innermost De
Casteljau points differ (equivalently, the curve's tangent at the split point
is nonzero).  When it fails, the merge's recovered split parameter is `0/0`
(NaN in the source's `f64` arithmetic, junk `0` in this real-number
embedding) and the reconstruction is garbage either way. -/
def split_merge_nondegenerate (cps : List Point) (t : ℝ) : Prop :=
  match cps with
  | [_, _] => True
  | [p0, p1, p2] => p0.lerp p1 t ≠ p1.lerp p2 t
  | [p0, p1, p2, p3] =>
      (p0.lerp p1 t).lerp (p1.lerp p2 t) t ≠ (p1.lerp p2 t).lerp (p2.lerp p3 t) t
  | _ => False

/-- C1 (amended) — for control points of length 2, 3 or 4 and `t ∈ (0, 1)`,
if the split is nondegenerate (`split_merge_nondegenerate`; automatic for
lines), then splitting and merging back succeeds and returns exactly the
original control points (hence in particular within `1e-3` of them). -/
theorem split_then_merge_reconstructs (cps : List Point) (t : ℝ)
    (h0 : 0 < t) (h1 : t < 1) (hnd : split_merge_nondegenerate cps t) :
    ∃ l r, split_bezier_curve_segment_at_t cps t = some (l, r) ∧
      merge_split_bezier_curves l r = some cps := by
  match cps, hnd with
  | [p0, p1], _ =>
    refine ⟨_, _, rfl, ?_⟩
    show merge_split_bezier_curves [p0, p0.lerp p1 t] [p0.lerp p1 t, p1] = some [p0, p1]
    unfold merge_split_bezier_curves
    rw [if_neg (by norm_num)]
    rw [if_neg (by
      show ¬ ((Point.lerp p0 p1 t) - (Point.lerp p0 p1 t)).length > 1e-3
      rw [Point.sub_self, Point.length_zero]; norm_num)]
    exact merge_split_linear_curves_spec p0 p1 t h0 h1
  | [p0, p1, p2], hnd =>
    refine ⟨_, _, rfl, ?_⟩
    show merge_split_bezier_curves
      [p0, p0.lerp p1 t, (p0.lerp p1 t).lerp (p1.lerp p2 t) t]
      [(p0.lerp p1 t).lerp (p1.lerp p2 t) t, p1.lerp p2 t, p2] = some [p0, p1, p2]
    unfold merge_split_bezier_curves
    rw [if_neg (by norm_num)]
    rw [if_neg (by
      show ¬ (((p0.lerp p1 t).lerp (p1.lerp p2 t) t)
        - ((p0.lerp p1 t).lerp (p1.lerp p2 t) t)).length > 1e-3
      rw [Point.sub_self, Point.length_zero]; norm_num)]
    exact merge_split_quadratic_curves_spec p0 p1 p2 t h0 h1 hnd
  | [p0, p1, p2, p3], hnd =>
    refine ⟨_, _, rfl, ?_⟩
    show merge_split_bezier_curves
      [p0, p0.lerp p1 t, (p0.lerp p1 t).lerp (p1.lerp p2 t) t,
        ((p0.lerp p1 t).lerp (p1.lerp p2 t) t).lerp ((p1.lerp p2 t).lerp (p2.lerp p3 t) t) t]
      [((p0.lerp p1 t).lerp (p1.lerp p2 t) t).lerp ((p1.lerp p2 t).lerp (p2.lerp p3 t) t) t,
        (p1.lerp p2 t).lerp (p2.lerp p3 t) t, p2.lerp p3 t, p3] = some [p0, p1, p2, p3]
    unfold merge_split_bezier_curves
    rw [if_neg (by norm_num)]
    rw [if_neg (by
      show ¬ ((((p0.lerp p1 t).lerp (p1.lerp p2 t) t).lerp
          ((p1.lerp p2 t).lerp (p2.lerp p3 t) t) t)
        - (((p0.lerp p1 t).lerp (p1.lerp p2 t) t).lerp
          ((p1.lerp p2 t).lerp (p2.lerp p3 t) t) t)).length > 1e-3
      rw [Point.sub_self, Point.length_zero]; norm_num)]
    exact merge_split_cubic_curves_spec p0 p1 p2 p3 t h0 h1 hnd

/-- C1 counterexample — for the degenerate quadratic `[(0,0), (1,0), (0,0)]`
split at `t = 1/2` (a cusp: the tangent vanishes at the split point), the
merge still succeeds but returns `[(0,0), (0,0), (0,0)]`, whose middle point
is at distance `1` from the original middle control point `(1,0)` — far
beyond `1e-3`.  (In the source's `f64` arithmetic the recovered parameter is
`0.0/0.0 = NaN` and the returned middle point is NaN, which is also not
within `1e-3`; the claim fails under both conventions.) -/
theorem split_then_merge_cex :
    split_bezier_curve_segment_at_t [⟨0, 0⟩, ⟨1, 0⟩, ⟨0, 0⟩] (1 / 2)
      = some ([⟨0, 0⟩, ⟨1 / 2, 0⟩, ⟨1 / 2, 0⟩], [⟨1 / 2, 0⟩, ⟨1 / 2, 0⟩, ⟨0, 0⟩]) ∧
    merge_split_bezier_curves [⟨0, 0⟩, ⟨1 / 2, 0⟩, ⟨1 / 2, 0⟩] [⟨1 / 2, 0⟩, ⟨1 / 2, 0⟩, ⟨0, 0⟩]
      = some [⟨0, 0⟩, ⟨0, 0⟩, ⟨0, 0⟩] ∧
    ¬ Point.distance ⟨1, 0⟩ ⟨0, 0⟩ ≤ 1e-3 := by
  refine ⟨?_, ?_, ?_⟩
  · unfold split_bezier_curve_segment_at_t split_quadratic_bezier_curve_segment
    simp only [Point.lerp]
    norm_num
  · unfold merge_split_bezier_curves
    rw [if_neg (by norm_num)]
    rw [if_neg (by
      show ¬ ((Point.mk (1 / 2) 0) - (Point.mk (1 / 2) 0)).length > 1e-3
      rw [Point.sub_self, Point.length_zero]; norm_num)]
    show merge_split_quadratic_curves ⟨0, 0⟩ ⟨1 / 2, 0⟩ ⟨1 / 2, 0⟩ ⟨1 / 2, 0⟩ ⟨1 / 2, 0⟩ ⟨0, 0⟩
      = some [⟨0, 0⟩, ⟨0, 0⟩, ⟨0, 0⟩]
    unfold merge_split_quadratic_curves
    rw [if_neg (by
      rw [show (Point.mk (1 / 2) 0 - Point.mk (1 / 2) 0 : Point) = ⟨0, 0⟩ from
        Point.sub_self _]
      rw [sub_self, abs_zero]; norm_num)]
    simp only [Point.sub_self, Point.length_zero]
    have hmid : (Point.mk 0 0) + ((Point.mk (1 / 2) 0 - Point.mk 0 0).mulScalar 1).divScalar
        ((0 : ℝ) / (0 + 0)) = Point.mk 0 0 := by
      ext <;> simp
    rw [hmid]
  · rw [show Point.distance ⟨1, 0⟩ ⟨0, 0⟩ = 1 by
      unfold Point.distance
      norm_num]
    norm_num

/-- C1 witness — the amended statement applied to the quadratic
`[(0,0), (1,2), (2,0)]` at `t = 1/2`, where the nondegeneracy hypothesis
holds concretely. -/
theorem split_then_merge_reconstructs_witness :
    ∃ l r, split_bezier_curve_segment_at_t [⟨0, 0⟩, ⟨1, 2⟩, ⟨2, 0⟩] (1 / 2) = some (l, r) ∧
      merge_split_bezier_curves l r = some [⟨0, 0⟩, ⟨1, 2⟩, ⟨2, 0⟩] :=
  split_then_merge_reconstructs [⟨0, 0⟩, ⟨1, 2⟩, ⟨2, 0⟩] (1 / 2) (by norm_num) (by norm_num)
    (by
      show Point.lerp ⟨0, 0⟩ ⟨1, 2⟩ (1 / 2) ≠ Point.lerp ⟨1, 2⟩ ⟨2, 0⟩ (1 / 2)
      unfold Point.lerp
      intro h
      have hx := congrArg Point.x h
      norm_num at hx)

/-- C2 witness: the invariants at a concrete line split at `t = 1/2`. -/
theorem split_shape_invariants_witness :
    ∃ l r, split_bezier_curve_segment_at_t [⟨0, 0⟩, ⟨1, 1⟩] (1 / 2) = some (l, r) ∧
      l.length = ([⟨0, 0⟩, ⟨1, 1⟩] : List Point).length ∧
      r.length = ([⟨0, 0⟩, ⟨1, 1⟩] : List Point).length ∧
      l.getLast? = r.head? ∧ l.head? = ([⟨0, 0⟩, ⟨1, 1⟩] : List Point).head? ∧
      r.getLast? = ([⟨0, 0⟩, ⟨1, 1⟩] : List Point).getLast? :=
  split_shape_invariants [⟨0, 0⟩, ⟨1, 1⟩] (1 / 2) (Or.inl rfl)

/-! ## t-parameterization heuristics (`modules/fit/t_heuristic.rs`) -/

/-- `THeuristic` — the three t-estimation heuristics. -/
inductive THeuristic where
  | ChordLength
  | Uniform
  | Centripetal

/-- The `path_lengths` entries pushed by the source's accumulation loop:
starting from running total `acc` at point `prev`, one entry per remaining
point, each the running total after adding `d prev p`. -/
def path_lengths_from (d : Point → Point → ℝ) : Point → List Point → ℝ → List ℝ
  | _, [], _ => []
  | prev, p :: rest, acc => (acc + d prev p) :: path_lengths_from d p rest (acc + d prev p)

/-- The final value of the source's `total_length` accumulator. -/
def total_length_from (d : Point → Point → ℝ) : Point → List Point → ℝ
  | _, [] => 0
  | prev, p :: rest => d prev p + total_length_from d p rest

/-- Common body of `estimate_t_values_chord_length` and
`estimate_t_values_centripetal`, which differ only in the per-segment length
`d`: 0 or 1 points are the early returns; otherwise cumulative lengths
(seeded with `0.0`) are normalized by the total, or mapped to `0.0` when the
total is not positive. -/
def cumulative_t_estimate (d : Point → Point → ℝ) (points : List Point) : List ℝ :=
  match points with
  | [] => []
  | [_] => [0]
  | p0 :: rest =>
      (0 :: path_lengths_from d p0 rest 0).map
        (fun l => if 0 < total_length_from d p0 rest then l / total_length_from d p0 rest else 0)

/-- `estimate_t_values_chord_length`: cumulative Euclidean distance
(`points[i].distance(&points[i-1])`) normalized by the total. -/
def estimate_t_values_chord_length (points : List Point) : List ℝ :=
  cumulative_t_estimate (fun prev p => p.distance prev) points

/-- `estimate_t_values_uniform`: `i / (len - 1)` for each index, after the 0-
and 1-point early returns. -/
def estimate_t_values_uniform (points : List Point) : List ℝ :=
  match points with
  | [] => []
  | [_] => [0]
  | _ => (List.range points.length).map
      (fun i : ℕ => (i : ℝ) / ((points.length - 1 : ℕ) : ℝ))

/-- `estimate_t_values_centripetal`: like chord length but with
`points[i].distance(&points[i-1]).sqrt()` per segment. -/
def estimate_t_values_centripetal (points : List Point) : List ℝ :=
  cumulative_t_estimate (fun prev p => Real.sqrt (p.distance prev)) points

/-- `estimate_t_values_with_heuristic`: dispatch on the heuristic. -/
def estimate_t_values_with_heuristic (points : List Point) (h : THeuristic) : List ℝ :=
  match h with
  | .ChordLength => estimate_t_values_chord_length points
  | .Uniform => estimate_t_values_uniform points
  | .Centripetal => estimate_t_values_centripetal points

theorem Point.distance_nonneg (p q : Point) : 0 ≤ p.distance q := Real.sqrt_nonneg _

theorem cumulative_t_estimate_cons_cons (d : Point → Point → ℝ) (p0 p1 : Point)
    (rest : List Point) :
    cumulative_t_estimate d (p0 :: p1 :: rest)
      = (0 :: path_lengths_from d p0 (p1 :: rest) 0).map
        (fun l => if 0 < total_length_from d p0 (p1 :: rest)
          then l / total_length_from d p0 (p1 :: rest) else 0) := rfl

theorem estimate_t_values_uniform_cons_cons (p0 p1 : Point) (rest : List Point) :
    estimate_t_values_uniform (p0 :: p1 :: rest)
      = (List.range (p0 :: p1 :: rest).length).map
        (fun i : ℕ => (i : ℝ) / (((p0 :: p1 :: rest).length - 1 : ℕ) : ℝ)) := rfl

theorem path_lengths_from_length (d : Point → Point → ℝ) :
    ∀ (rest : List Point) (prev : Point) (acc : ℝ),
      (path_lengths_from d prev rest acc).length = rest.length := by
  intro rest
  induction rest with
  | nil => intro prev acc; rfl
  | cons p rest ih => intro prev acc; simp [path_lengths_from, ih]

theorem path_lengths_from_getLast (d : Point → Point → ℝ) :
    ∀ (rest : List Point) (prev : Point) (acc : ℝ),
      (acc :: path_lengths_from d prev rest acc).getLast?
        = some (acc + total_length_from d prev rest) := by
  intro rest
  induction rest with
  | nil => intro prev acc; simp [path_lengths_from, total_length_from]
  | cons p rest ih =>
      intro prev acc
      rw [path_lengths_from, List.getLast?_cons_cons, ih p (acc + d prev p),
        total_length_from]
      rw [add_assoc]

theorem path_lengths_from_chain (d : Point → Point → ℝ) (hd : ∀ a b, 0 ≤ d a b) :
    ∀ (rest : List Point) (prev : Point) (acc : ℝ),
      List.Chain' (· ≤ ·) (acc :: path_lengths_from d prev rest acc) := by
  intro rest
  induction rest with
  | nil => intro prev acc; simp [path_lengths_from]
  | cons p rest ih =>
      intro prev acc
      rw [path_lengths_from]
      exact List.Chain'.cons (by linarith [hd prev p]) (ih p (acc + d prev p))

theorem cumulative_t_estimate_props (d : Point → Point → ℝ) (hd : ∀ a b, 0 ≤ d a b)
    (points : List Point) :
    (cumulative_t_estimate d points).length = points.length ∧
    (points = [] → cumulative_t_estimate d points = []) ∧
    (∀ p, points = [p] → cumulative_t_estimate d points = [0]) ∧
    (2 ≤ points.length →
      (cumulative_t_estimate d points).head? = some 0 ∧
      List.Chain' (· ≤ ·) (cumulative_t_estimate d points) ∧
      (∀ p0 rest, points = p0 :: rest → 0 < total_length_from d p0 rest →
        (cumulative_t_estimate d points).getLast? = some 1)) := by
  match points with
  | [] => simp [cumulative_t_estimate]
  | [p] => simp [cumulative_t_estimate]
  | p0 :: p1 :: rest =>
    refine ⟨?_, fun hc => absurd hc (List.cons_ne_nil _ _),
      fun p hc => by
        injection hc with h1 h2
        exact absurd h2 (List.cons_ne_nil _ _), fun _ => ⟨?_, ?_, ?_⟩⟩
    · rw [cumulative_t_estimate_cons_cons]
      simp [path_lengths_from_length]
    · rw [cumulative_t_estimate_cons_cons]
      simp only [List.map_cons, List.head?_cons]
      by_cases hpos : 0 < total_length_from d p0 (p1 :: rest)
      · rw [if_pos hpos, zero_div]
      · rw [if_neg hpos]
    · rw [cumulative_t_estimate_cons_cons]
      rw [List.chain'_map]
      apply List.Chain'.imp ?_ (path_lengths_from_chain d hd (p1 :: rest) p0 0)
      intro a b hab
      by_cases hpos : 0 < total_length_from d p0 (p1 :: rest)
      · rw [if_pos hpos, if_pos hpos]
        exact (div_le_div_iff_of_pos_right hpos).mpr hab
      · rw [if_neg hpos, if_neg hpos]
    · intro q0 qrest hq hpos
      injection hq with h1 h2
      subst h1
      subst h2
      rw [cumulative_t_estimate_cons_cons]
      rw [List.getLast?_map, path_lengths_from_getLast]
      simp only [Option.map_some']
      rw [if_pos hpos, zero_add, div_self (ne_of_gt hpos)]

/-- Total length positivity, the nondegeneracy condition under which the
chord-length and centripetal heuristics end at `1.0`; `Uniform` needs none. -/
def heuristic_total_positive (points : List Point) (h : THeuristic) : Prop :=
  match h, points with
  | .Uniform, _ => True
  | _, [] => True
  | .ChordLength, p0 :: rest =>
      0 < total_length_from (fun prev p => p.distance prev) p0 rest
  | .Centripetal, p0 :: rest =>
      0 < total_length_from (fun prev p => Real.sqrt (p.distance prev)) p0 rest

theorem uniform_map_head (n : ℕ) (hn : 2 ≤ n) (c : ℝ) :
    ((List.range n).map (fun i : ℕ => (i : ℝ) / c)).head? = some 0 := by
  obtain ⟨m, rfl⟩ := Nat.exists_eq_add_of_le hn
  rw [show 2 + m = (1 + m) + 1 by ring, List.range_succ_eq_map]
  simp

theorem uniform_map_chain (n : ℕ) {c : ℝ} (hc : 0 < c) :
    List.Chain' (· ≤ ·) ((List.range n).map (fun i : ℕ => (i : ℝ) / c)) := by
  rw [List.chain'_map]
  match n with
  | 0 => simp
  | k + 1 =>
    rw [List.chain'_range_succ]
    intro m _
    apply (div_le_div_iff_of_pos_right hc).mpr
    push_cast
    linarith

theorem uniform_map_getLast (n : ℕ) (hn : 2 ≤ n) (c : ℝ) :
    ((List.range n).map (fun i : ℕ => (i : ℝ) / c)).getLast? = some (((n - 1 : ℕ) : ℝ) / c) := by
  obtain ⟨m, rfl⟩ := Nat.exists_eq_add_of_le hn
  rw [show 2 + m = (1 + m) + 1 by ring, List.range_succ, List.map_append]
  simp only [List.map_cons, List.map_nil, List.getLast?_concat]
  norm_num

theorem estimate_t_values_uniform_props (points : List Point) :
    (estimate_t_values_uniform points).length = points.length ∧
    (points = [] → estimate_t_values_uniform points = []) ∧
    (∀ p, points = [p] → estimate_t_values_uniform points = [0]) ∧
    (2 ≤ points.length →
      (estimate_t_values_uniform points).head? = some 0 ∧
      List.Chain' (· ≤ ·) (estimate_t_values_uniform points) ∧
      (estimate_t_values_uniform points).getLast? = some 1) := by
  match points with
  | [] => simp [estimate_t_values_uniform]
  | [p] => simp [estimate_t_values_uniform]
  | p0 :: p1 :: rest =>
    have hn : 2 ≤ (p0 :: p1 :: rest).length := by simp
    have hden : (0 : ℝ) < (((p0 :: p1 :: rest).length - 1 : ℕ) : ℝ) := by
      have : (p0 :: p1 :: rest).length - 1 = rest.length + 1 := by simp
      rw [this]
      positivity
    refine ⟨?_, fun hc => absurd hc (List.cons_ne_nil _ _),
      fun p hc => by
        injection hc with h1 h2
        exact absurd h2 (List.cons_ne_nil _ _), fun _ => ⟨?_, ?_, ?_⟩⟩
    · rw [estimate_t_values_uniform_cons_cons]
      rw [List.length_map, List.length_range]
    · rw [estimate_t_values_uniform_cons_cons]
      exact uniform_map_head _ hn _
    · rw [estimate_t_values_uniform_cons_cons]
      exact uniform_map_chain _ hden
    · rw [estimate_t_values_uniform_cons_cons]
      rw [uniform_map_getLast _ hn, div_self (ne_of_gt hden)]

/-- C5 (amended) — every heuristic returns one t per input point, `[]` for no
points and `[0.0]` for one point; for at least two points the sequence starts
at `0.0` and is non-decreasing, and it ends at `1.0` provided the total
(square-rooted, for `Centripetal`) chord length is positive — for totally
coincident points the chord-length and centripetal heuristics instead return
the all-zero vector, as the source's degenerate-case branch prescribes. -/
theorem estimate_t_values_with_heuristic_props (points : List Point) (h : THeuristic) :
    (estimate_t_values_with_heuristic points h).length = points.length ∧
    (points = [] → estimate_t_values_with_heuristic points h = []) ∧
    (∀ p, points = [p] → estimate_t_values_with_heuristic points h = [0]) ∧
    (2 ≤ points.length →
      (estimate_t_values_with_heuristic points h).head? = some 0 ∧
      List.Chain' (· ≤ ·) (estimate_t_values_with_heuristic points h) ∧
      (heuristic_total_positive points h →
        (estimate_t_values_with_heuristic points h).getLast? = some 1)) := by
  match h with
  | .Uniform =>
    obtain ⟨h1, h2, h3, h4⟩ := estimate_t_values_uniform_props points
    exact ⟨h1, h2, h3, fun hl => ⟨(h4 hl).1, (h4 hl).2.1, fun _ => (h4 hl).2.2⟩⟩
  | .ChordLength =>
    obtain ⟨h1, h2, h3, h4⟩ := cumulative_t_estimate_props
      (fun prev p => p.distance prev) (fun a b => Point.distance_nonneg b a) points
    refine ⟨h1, h2, h3, fun hl => ⟨(h4 hl).1, (h4 hl).2.1, fun hpos => ?_⟩⟩
    match points, hl, h4, hpos with
    | [], hl, _, _ => simp at hl
    | [p], hl, _, _ => simp at hl
    | p0 :: p1 :: rest, hl, h4, hpos =>
      exact (h4 hl).2.2 p0 (p1 :: rest) rfl hpos
  | .Centripetal =>
    obtain ⟨h1, h2, h3, h4⟩ := cumulative_t_estimate_props
      (fun prev p => Real.sqrt (p.distance prev)) (fun a b => Real.sqrt_nonneg _) points
    refine ⟨h1, h2, h3, fun hl => ⟨(h4 hl).1, (h4 hl).2.1, fun hpos => ?_⟩⟩
    match points, hl, h4, hpos with
    | [], hl, _, _ => simp at hl
    | [p], hl, _, _ => simp at hl
    | p0 :: p1 :: rest, hl, h4, hpos =>
      exact (h4 hl).2.2 p0 (p1 :: rest) rfl hpos

/-- C5 counterexample — two coincident points under the chord-length
heuristic: the result is `[0, 0]`, whose last element is `0.0`, not `1.0` as
the claim requires of every input. -/
theorem estimate_t_values_degenerate_cex :
    estimate_t_values_with_heuristic [⟨0, 0⟩, ⟨0, 0⟩] THeuristic.ChordLength = [0, 0] ∧
    ¬ (estimate_t_values_with_heuristic [⟨0, 0⟩, ⟨0, 0⟩]
        THeuristic.ChordLength).getLast? = some 1 := by
  have hdist : Point.distance ⟨0, 0⟩ ⟨0, 0⟩ = 0 := by
    unfold Point.distance
    norm_num
  have hres : estimate_t_values_with_heuristic [⟨0, 0⟩, ⟨0, 0⟩] THeuristic.ChordLength
      = [0, 0] := by
    rw [estimate_t_values_with_heuristic, estimate_t_values_chord_length,
      cumulative_t_estimate_cons_cons]
    rw [path_lengths_from, path_lengths_from, total_length_from, total_length_from]
    rw [hdist]
    norm_num
  exact ⟨hres, by rw [hres]; norm_num⟩

/-! ## Evaluation and tangents (`modules/geometry/evaluation.rs`) -/

/-- `evaluate_quadratic_bezier_curve_segment` body: Bernstein basis of degree 2. -/
def evaluate_quadratic_point (p0 p1 p2 : Point) (t : ℝ) : Point :=
  Point.smul ((1 - t) * (1 - t)) p0 + Point.smul (2 * (1 - t) * t) p1 + Point.smul (t * t) p2

/-- `evaluate_cubic_bezier_curve_segment` body: Bernstein basis of degree 3. -/
def evaluate_cubic_point (p0 p1 p2 p3 : Point) (t : ℝ) : Point :=
  Point.smul ((1 - t) * (1 - t) * (1 - t)) p0
    + Point.smul (3 * ((1 - t) * (1 - t)) * t) p1
    + Point.smul (3 * (1 - t) * (t * t)) p2
    + Point.smul (t * t * t) p3

/-- `evaluate_bezier_curve_segment`: dispatch on the number of control points;
counts outside 2/3/4 panic in the source, modelled as `none`. -/
def evaluate_bezier_curve_segment (control_points : List Point) (t : ℝ) : Option Point :=
  match control_points with
  | [p0, p1] => some (p0.lerp p1 t)
  | [p0, p1, p2] => some (evaluate_quadratic_point p0 p1 p2 t)
  | [p0, p1, p2, p3] => some (evaluate_cubic_point p0 p1 p2 p3 t)
  | _ => none

/-- `calculate_tangent_at_t_on_bezier_curve_segment`: derivative of the same
bases; counts outside 2/3/4 panic in the source, modelled as `none`. -/
def calculate_tangent_at_t_on_bezier_curve_segment (control_points : List Point) (t : ℝ) :
    Option Point :=
  match control_points with
  | [p0, p1] => some (p1 - p0)
  | [p0, p1, p2] =>
      some (Point.smul 2 (Point.smul (1 - t) (p1 - p0) + Point.smul t (p2 - p1)))
  | [p0, p1, p2, p3] =>
      some (Point.smul 3 (Point.smul ((1 - t) * (1 - t)) (p1 - p0)
        + Point.smul (2 * (1 - t) * t) (p2 - p1) + Point.smul (t * t) (p3 - p2)))
  | _ => none

/-- `BezierSegment` (`data/segment.rs`): tagged union whose variant fixes the
control-point arity; `Arc` holds endpoint and ellipse parameters. -/
inductive BezierSegment where
  | Line (p0 p1 : Point)
  | Cubic (p0 p1 p2 p3 : Point)
  | Quadratic (p0 p1 p2 : Point)
  | Arc (start stop : Point) (rx ry angle : ℝ) (large_arc sweep : Bool)

/-- `BezierSegment::points` — all control points (for `Arc`, start and end). -/
def BezierSegment.points : BezierSegment → List Point
  | .Line p0 p1 => [p0, p1]
  | .Cubic p0 p1 p2 p3 => [p0, p1, p2, p3]
  | .Quadratic p0 p1 p2 => [p0, p1, p2]
  | .Arc s e _ _ _ _ _ => [s, e]

/-- `BezierSegment::point_at` (`modules/geometry/evaluation.rs`): per-variant
evaluation; `Arc` panics (`none`). -/
def BezierSegment.point_at : BezierSegment → ℝ → Option Point
  | .Line p0 p1, t => some (p0.lerp p1 t)
  | .Cubic p0 p1 p2 p3, t => some (evaluate_cubic_point p0 p1 p2 p3 t)
  | .Quadratic p0 p1 p2, t => some (evaluate_quadratic_point p0 p1 p2 t)
  | .Arc .., _ => none

/-- `BezierSegment::new(&[Point])` — called by `split_at` on the non-Arc
split halves; its body is not among the staged sources, so it is modelled by
its evident contract (variant chosen by arity). No claim depends on it. -/
def BezierSegment.new : List Point → Option BezierSegment
  | [p0, p1] => some (.Line p0 p1)
  | [p0, p1, p2] => some (.Quadratic p0 p1 p2)
  | [p0, p1, p2, p3] => some (.Cubic p0 p1 p2 p3)
  | _ => none

/-- `BezierSegment::split_at` (`modules/geometry/split.rs`): `Arc` panics
(`none`); otherwise split the `points()` list and rebuild two segments. -/
def BezierSegment.split_at (s : BezierSegment) (t : ℝ) :
    Option (BezierSegment × BezierSegment) :=
  match s with
  | .Arc .. => none
  | _ =>
      match split_bezier_curve_segment_at_t s.points t with
      | none => none
      | some (l, r) =>
          match BezierSegment.new l, BezierSegment.new r with
          | some sl, some sr => some (sl, sr)
          | _, _ => none

/-- C7 — evaluation, tangent and raw split on a control-point list whose
length is not 2, 3 or 4 all fail hard (panic, modelled `none`), and
`point_at`/`split_at` on an `Arc` segment fail hard as well; none of them
produces a default value. -/
theorem unsupported_inputs_fail (cps : List Point) (t : ℝ) (s e : Point) (rx ry ang : ℝ)
    (la sw : Bool) (h : ¬(cps.length = 2 ∨ cps.length = 3 ∨ cps.length = 4)) :
    evaluate_bezier_curve_segment cps t = none ∧
    calculate_tangent_at_t_on_bezier_curve_segment cps t = none ∧
    split_bezier_curve_segment_at_t cps t = none ∧
    BezierSegment.point_at (.Arc s e rx ry ang la sw) t = none ∧
    BezierSegment.split_at (.Arc s e rx ry ang la sw) t = none := by
  refine ⟨?_, ?_, ?_, rfl, rfl⟩ <;>
    match cps, h with
    | [], _ => rfl
    | [_], _ => rfl
    | [_, _], h => exact absurd (Or.inl rfl) h
    | [_, _, _], h => exact absurd (Or.inr (Or.inl rfl)) h
    | [_, _, _, _], h => exact absurd (Or.inr (Or.inr rfl)) h
    | _ :: _ :: _ :: _ :: _ :: _, _ => rfl

/-- C7 witness: the failures at a concrete 5-point list and a concrete arc. -/
theorem unsupported_inputs_fail_witness :
    evaluate_bezier_curve_segment [⟨0, 0⟩, ⟨1, 0⟩, ⟨2, 0⟩, ⟨3, 0⟩, ⟨4, 0⟩] (1 / 2) = none ∧
    calculate_tangent_at_t_on_bezier_curve_segment
      [⟨0, 0⟩, ⟨1, 0⟩, ⟨2, 0⟩, ⟨3, 0⟩, ⟨4, 0⟩] (1 / 2) = none ∧
    split_bezier_curve_segment_at_t [⟨0, 0⟩, ⟨1, 0⟩, ⟨2, 0⟩, ⟨3, 0⟩, ⟨4, 0⟩] (1 / 2) = none ∧
    BezierSegment.point_at (.Arc ⟨0, 0⟩ ⟨1, 0⟩ 1 1 0 false true) (1 / 2) = none ∧
    BezierSegment.split_at (.Arc ⟨0, 0⟩ ⟨1, 0⟩ 1 1 0 false true) (1 / 2) = none :=
  unsupported_inputs_fail [⟨0, 0⟩, ⟨1, 0⟩, ⟨2, 0⟩, ⟨3, 0⟩, ⟨4, 0⟩] (1 / 2)
    ⟨0, 0⟩ ⟨1, 0⟩ 1 1 0 false true (by simp)

/-! ## Nearest-point search (`modules/geometry/utils.rs`) -/

/-- Total evaluator used inside the nearest-point search; it is only reached
for control-point counts 2/3/4 (the guard models the panic the source's first
evaluation raises otherwise), where it agrees with
`evaluate_bezier_curve_segment`. -/
def evalP (cps : List Point) (t : ℝ) : Point :=
  (evaluate_bezier_curve_segment cps t).getD ⟨0, 0⟩

/-- State of the lookup-table phase: `best_distance`, `best_t`, `best_point`. -/
structure NearState where
  best_distance : ℝ
  best_t : ℝ
  best_point : Point

/-- One iteration of the LUT loop at index `i`: `t = i / 100`, keep the
strictly closer sample. -/
def lut_step (cps : List Point) (target : Point) (st : NearState) (i : ℕ) : NearState :=
  let t := (i : ℝ) / 100
  let curve_point := evalP cps t
  let dist := target.distance curve_point
  if dist < st.best_distance then ⟨dist, t, curve_point⟩ else st

/-- Phase 1 of `find_nearest_point_on_bezier_curve_segment`: 101 uniform
samples over `[0,1]`, seeded with the evaluation at `t = 0`. -/
def lut_phase (cps : List Point) (target : Point) : NearState :=
  (List.range 101).foldl (lut_step cps target)
    ⟨target.distance (evalP cps 0), 0, evalP cps 0⟩

/-- State of the ternary-search refinement: interval plus current best. -/
structure RefineState where
  left : ℝ
  right : ℝ
  best_distance : ℝ
  best_t : ℝ
  best_point : Point

/-- Phase 2 of `find_nearest_point_on_bezier_curve_segment`: the
`while right - left > 0.001` refinement, with explicit fuel.  Every pass
shrinks the interval to at most two thirds, so any fuel ≥ 8 reproduces the
source loop exactly from the intervals phase 1 can produce. -/
def refine_go (cps : List Point) (target : Point) : ℕ → RefineState → RefineState
  | 0, st => st
  | n + 1, st =>
      if st.right - st.left > 0.001 then
        let mid1 := st.left + (st.right - st.left) / 3
        let mid2 := st.right - (st.right - st.left) / 3
        let point1 := evalP cps mid1
        let point2 := evalP cps mid2
        let dist1 := target.distance point1
        let dist2 := target.distance point2
        if dist1 < st.best_distance then
          refine_go cps target n ⟨st.left, mid2, dist1, mid1, point1⟩
        else if dist2 < st.best_distance then
          refine_go cps target n ⟨mid1, st.right, dist2, mid2, point2⟩
        else
          refine_go cps target n ⟨mid1, mid2, st.best_distance, st.best_t, st.best_point⟩
      else st

/-- `find_nearest_point_on_bezier_curve_segment`: LUT phase then ternary
refinement on `[max (t-1/100) 0, min (t+1/100) 1]`; a control-point count
outside 2/3/4 panics at the very first evaluation (`none`). -/
def find_nearest_point_on_bezier_curve_segment (cps : List Point) (target : Point) :
    Option (Point × ℝ) :=
  if cps.length = 2 ∨ cps.length = 3 ∨ cps.length = 4 then
    let st := lut_phase cps target
    let st2 := refine_go cps target 100
      ⟨max (st.best_t - 1 / 100) 0, min (st.best_t + 1 / 100) 1,
        st.best_distance, st.best_t, st.best_point⟩
    some (st2.best_point, st2.best_t)
  else none

/-- `BezierSegment::nearest_point` (`modules/geometry/utils.rs`): the raw
search on `points()`.  Each variant's `points()` has length 2, 3 or 4, so the
search always returns; the returned pair is extracted below. -/
def BezierSegment.nearest_point (s : BezierSegment) (target : Point) : Point × ℝ :=
  (find_nearest_point_on_bezier_curve_segment s.points target).getD (⟨0, 0⟩, 0)

/-- Invariant of the LUT phase: the best parameter stays in `[0,1]` and the
best point is always the curve evaluated at it. -/
def near_inv (cps : List Point) (st : NearState) : Prop :=
  0 ≤ st.best_t ∧ st.best_t ≤ 1 ∧ st.best_point = evalP cps st.best_t

theorem lut_step_inv (cps : List Point) (target : Point) (st : NearState) (i : ℕ)
    (hi : i ≤ 100) (h : near_inv cps st) : near_inv cps (lut_step cps target st i) := by
  unfold lut_step
  by_cases hlt : target.distance (evalP cps ((i : ℝ) / 100)) < st.best_distance
  · simp only [if_pos hlt]
    refine ⟨by positivity, ?_, rfl⟩
    rw [div_le_one (by norm_num : (0 : ℝ) < 100)]
    exact_mod_cast hi
  · simp only [if_neg hlt]
    exact h

theorem lut_foldl_inv (cps : List Point) (target : Point) :
    ∀ (l : List ℕ) (st : NearState), (∀ i ∈ l, i ≤ 100) → near_inv cps st →
      near_inv cps (l.foldl (lut_step cps target) st) := by
  intro l
  induction l with
  | nil => intro st _ h; exact h
  | cons i rest ih =>
      intro st hmem h
      rw [List.foldl_cons]
      exact ih _ (fun j hj => hmem j (List.mem_cons_of_mem i hj))
        (lut_step_inv cps target st i (hmem i (List.mem_cons_self i rest)) h)

theorem lut_phase_inv (cps : List Point) (target : Point) :
    near_inv cps (lut_phase cps target) := by
  unfold lut_phase
  apply lut_foldl_inv
  · intro i hi
    have := List.mem_range.mp hi
    omega
  · exact ⟨le_refl 0, by norm_num, rfl⟩

/-- Invariant of the refinement phase: interval inside `[0,1]`, best
parameter inside `[0,1]`, best point the evaluation at it. -/
def refine_inv (cps : List Point) (st : RefineState) : Prop :=
  0 ≤ st.left ∧ st.left ≤ st.right ∧ st.right ≤ 1 ∧
  0 ≤ st.best_t ∧ st.best_t ≤ 1 ∧ st.best_point = evalP cps st.best_t

theorem refine_go_inv (cps : List Point) (target : Point) :
    ∀ (fuel : ℕ) (st : RefineState), refine_inv cps st →
      refine_inv cps (refine_go cps target fuel st) := by
  intro fuel
  induction fuel with
  | zero => intro st h; exact h
  | succ n ih =>
      intro st h
      obtain ⟨h0, h1, h2, h3, h4, h5⟩ := h
      rw [refine_go]
      by_cases hw : st.right - st.left > 0.001
      · rw [if_pos hw]
        simp only []
        by_cases hd1 : target.distance (evalP cps (st.left + (st.right - st.left) / 3))
            < st.best_distance
        · rw [if_pos hd1]
          exact ih _ ⟨h0, by simp only []; linarith, by simp only []; linarith,
            by simp only []; linarith, by simp only []; linarith, rfl⟩
        · rw [if_neg hd1]
          by_cases hd2 : target.distance (evalP cps (st.right - (st.right - st.left) / 3))
              < st.best_distance
          · rw [if_pos hd2]
            exact ih _ ⟨by simp only []; linarith, by simp only []; linarith,
              by simp only []; linarith, by simp only []; linarith,
              by simp only []; linarith, rfl⟩
          · rw [if_neg hd2]
            exact ih _ ⟨by simp only []; linarith, by simp only []; linarith,
              by simp only []; linarith, h3, h4, h5⟩
      · rw [if_neg hw]
        exact ⟨h0, h1, h2, h3, h4, h5⟩

theorem evaluate_eq_evalP (cps : List Point) (t : ℝ)
    (h : cps.length = 2 ∨ cps.length = 3 ∨ cps.length = 4) :
    evaluate_bezier_curve_segment cps t = some (evalP cps t) := by
  match cps, h with
  | [p0, p1], _ => rfl
  | [p0, p1, p2], _ => rfl
  | [p0, p1, p2, p3], _ => rfl

/-- C10 — for control points of length 2, 3 or 4 and any target, the
nearest-point search returns a pair `(point, t)` with `t ∈ [0,1]` and `point`
exactly the curve evaluated at `t`. -/
theorem nearest_point_invariant (cps : List Point) (target : Point)
    (h : cps.length = 2 ∨ cps.length = 3 ∨ cps.length = 4) :
    ∃ p t, find_nearest_point_on_bezier_curve_segment cps target = some (p, t) ∧
      0 ≤ t ∧ t ≤ 1 ∧ evaluate_bezier_curve_segment cps t = some p := by
  obtain ⟨hb0, hb1, hbp⟩ := lut_phase_inv cps target
  have hinv : refine_inv cps
      ⟨max ((lut_phase cps target).best_t - 1 / 100) 0,
        min ((lut_phase cps target).best_t + 1 / 100) 1,
        (lut_phase cps target).best_distance, (lut_phase cps target).best_t,
        (lut_phase cps target).best_point⟩ := by
    refine ⟨le_max_right _ _, ?_, ?_, hb0, hb1, hbp⟩
    · simp only []
      apply le_trans (max_le (by linarith) hb0)
      exact le_min (by linarith) hb1
    · exact min_le_right _ _
  obtain ⟨_, _, _, ht0, ht1, hpt⟩ := refine_go_inv cps target 100 _ hinv
  refine ⟨(refine_go cps target 100
      ⟨max ((lut_phase cps target).best_t - 1 / 100) 0,
        min ((lut_phase cps target).best_t + 1 / 100) 1,
        (lut_phase cps target).best_distance, (lut_phase cps target).best_t,
        (lut_phase cps target).best_point⟩).best_point,
    (refine_go cps target 100
      ⟨max ((lut_phase cps target).best_t - 1 / 100) 0,
        min ((lut_phase cps target).best_t + 1 / 100) 1,
        (lut_phase cps target).best_distance, (lut_phase cps target).best_t,
        (lut_phase cps target).best_point⟩).best_t, ?_, ht0, ht1, ?_⟩
  · unfold find_nearest_point_on_bezier_curve_segment
    rw [if_pos h]
  · rw [evaluate_eq_evalP cps _ h, hpt]

/-- C10 witness: the invariant instantiated on a concrete line and target. -/
theorem nearest_point_invariant_witness :
    ∃ p t, find_nearest_point_on_bezier_curve_segment [⟨0, 0⟩, ⟨10, 0⟩] ⟨5, 3⟩
        = some (p, t) ∧
      0 ≤ t ∧ t ≤ 1 ∧ evaluate_bezier_curve_segment [⟨0, 0⟩, ⟨10, 0⟩] t = some p :=
  nearest_point_invariant [⟨0, 0⟩, ⟨10, 0⟩] ⟨5, 3⟩ (Or.inl rfl)

/-! ## Closed-form least squares (`modules/fit/least_square_fit_common.rs`) -/

instance : Inhabited Point := ⟨⟨0, 0⟩⟩

/-- `compute_bernstein_basis` — the fixed 4×4 cubic Bernstein coefficient
matrix, row-major as in the source. -/
def bernstein_matrix : Matrix (Fin 4) (Fin 4) ℝ :=
  !![1, 0, 0, 0; -3, 3, 0, 0; 3, -6, 3, 0; -1, 3, -3, 1]

/-- One row of `compute_polynomial_basis`: `[1, t, t², t³]`. -/
def polynomial_basis_row (t : ℝ) : Fin 4 → ℝ := ![1, t, t ^ 2, t ^ 3]

/-- One row of `A = CT * B` used throughout the fitting code. -/
def design_row (t : ℝ) (k : Fin 4) : ℝ :=
  ∑ j : Fin 4, polynomial_basis_row t j * bernstein_matrix j k

/-- `AᵀA` of the design matrix built from the t-values. -/
def ata (t_values : List ℝ) : Matrix (Fin 4) (Fin 4) ℝ :=
  Matrix.of fun k l => (t_values.map (fun t => design_row t k * design_row t l)).sum

/-- `Aᵀb` for one coordinate of the sample points. -/
def atb (points : List Point) (t_values : List ℝ) (coord : Point → ℝ) (k : Fin 4) : ℝ :=
  ((t_values.zip points).map (fun tp => design_row tp.1 k * coord tp.2)).sum

/-- `reorder_control_points`: reverse the four solved control points when the
first sample is closer to `p4` than to `p1`. -/
def reorder_control_points (p1 p2 p3 p4 start_point : Point) :
    Point × Point × Point × Point :=
  if start_point.distance p4 < start_point.distance p1 then (p4, p3, p2, p1)
  else (p1, p2, p3, p4)

/-- `least_square_solve_p_given_t`: guard `n < 4` or count mismatch, build
`AᵀA`, fail when it is not invertible (nalgebra's `try_inverse` on a 4×4
matrix succeeds exactly when its determinant is nonzero), solve the normal
equations for x and y, reorder, and return a `Cubic` segment.
`points.headI` stands for `points.first().unwrap()`, reached only with
`n ≥ 4`. -/
def least_square_solve_p_given_t (points : List Point) (t_values : List ℝ) :
    Except String BezierSegment :=
  if points.length < 4 ∨ points.length ≠ t_values.length then
    .error "At least 4 points are required and number of points must match number of t values"
  else if (ata t_values).det = 0 then
    .error "Could not compute matrix inverse for least squares solve p given t"
  else
    let inv := (ata t_values)⁻¹
    let cx := fun k => ∑ l, inv k l * atb points t_values Point.x l
    let cy := fun k => ∑ l, inv k l * atb points t_values Point.y l
    let r := reorder_control_points ⟨cx 0, cy 0⟩ ⟨cx 1, cy 1⟩ ⟨cx 2, cy 2⟩ ⟨cx 3, cy 3⟩
      points.headI
    .ok (.Cubic r.1 r.2.1 r.2.2.1 r.2.2.2)

/-- C6 — the solve returns a `FitError` exactly when there are fewer than 4
points, the point and t-value counts differ, or `AᵀA` is singular; in every
other case it returns a `Cubic` segment. -/
theorem least_square_solve_error_iff (points : List Point) (t_values : List ℝ) :
    ((∃ e, least_square_solve_p_given_t points t_values = .error e) ↔
      (points.length < 4 ∨ points.length ≠ t_values.length ∨ (ata t_values).det = 0)) ∧
    (∀ r, least_square_solve_p_given_t points t_values = .ok r →
      ∃ c1 c2 c3 c4, r = .Cubic c1 c2 c3 c4) := by
  unfold least_square_solve_p_given_t
  by_cases h1 : points.length < 4 ∨ points.length ≠ t_values.length
  · rw [if_pos h1]
    refine ⟨⟨fun _ => ?_, fun _ => ⟨_, rfl⟩⟩, fun r hr => Except.noConfusion hr⟩
    rcases h1 with h | h
    · exact Or.inl h
    · exact Or.inr (Or.inl h)
  · rw [if_neg h1]
    by_cases h2 : (ata t_values).det = 0
    · rw [if_pos h2]
      exact ⟨⟨fun _ => Or.inr (Or.inr h2), fun _ => ⟨_, rfl⟩⟩,
        fun r hr => Except.noConfusion hr⟩
    · rw [if_neg h2]
      constructor
      · constructor
        · rintro ⟨e, he⟩
          exact Except.noConfusion he
        · intro hc
          rcases hc with h | h | h
          · exact absurd (Or.inl h) h1
          · exact absurd (Or.inr h) h1
          · exact absurd h h2
      · intro r hr
        simp only [] at hr
        injection hr with hr
        exact ⟨_, _, _, _, hr.symm⟩

/-! ## Sequential merging (`merge_curves_sequentially`, `modules/geometry/merge.rs`) -/

/-- One adjacent pair's attempt inside the scan of
`merge_curves_sequentially`: skip on a length mismatch, try the merge in
curve order then in reversed order when the shared-endpoint distance is
within `1e-3`.  Outer `none` models the panic when both curves are empty
(the source indexes `c1[c1.len() - 1]`); `some none` is "no merge",
`some (some m)` a successful merge. -/
def try_merge_pair (c1 c2 : List Point) : Option (Option (List Point)) :=
  if c1.length ≠ c2.length then some none
  else if c1.isEmpty then none
  else some (
    if ((c1.getLast?.getD ⟨0, 0⟩) - (c2.head?.getD ⟨0, 0⟩)).length < 1e-3 then
      merge_split_bezier_curves c1 c2
    else if ((c2.getLast?.getD ⟨0, 0⟩) - (c1.head?.getD ⟨0, 0⟩)).length < 1e-3 then
      merge_split_bezier_curves c2 c1
    else none)

/-- One full scan of the `for i in 0..curves.len()-1` loop: find the first
adjacent pair that merges, splice it in and stop (`some (some out)`), report
`some none` when no pair merges, propagate a panic as `none`. -/
def merge_pass : List (List Point) → Option (Option (List (List Point)))
  | c1 :: c2 :: rest =>
      match try_merge_pair c1 c2 with
      | none => none
      | some (some m) => some (some (m :: rest))
      | some none =>
          match merge_pass (c2 :: rest) with
          | none => none
          | some none => some none
          | some (some out) => some (some (c1 :: out))
  | _ => some none

/-- The outer `loop` of `merge_curves_sequentially`: repeat passes until one
makes no merge.  Each successful pass shortens the list by one, so fuel
`curves.length` always reaches the fixpoint; the fuel-0 fallback is
unreachable from `merge_curves_sequentially`. -/
def merge_loop : ℕ → List (List Point) → Option (List (List Point))
  | 0, curves => some curves
  | n + 1, curves =>
      match merge_pass curves with
      | none => none
      | some none => some curves
      | some (some out) => merge_loop n out

/-- `merge_curves_sequentially`: fewer than two curves are returned as-is,
otherwise scan-and-splice until a full pass merges nothing. -/
def merge_curves_sequentially (curves : List (List Point)) : Option (List (List Point)) :=
  if curves.length < 2 then some curves else merge_loop curves.length curves

theorem merge_pass_length :
    ∀ (curves out : List (List Point)), merge_pass curves = some (some out) →
      out.length + 1 = curves.length := by
  intro curves
  induction curves with
  | nil => intro out h; simp [merge_pass] at h
  | cons c1 rest ih =>
      cases rest with
      | nil => intro out h; simp [merge_pass] at h
      | cons c2 rest2 =>
          intro out h
          rw [merge_pass] at h
          cases htm : try_merge_pair c1 c2 with
          | none => rw [htm] at h; exact Option.noConfusion h
          | some s =>
              cases s with
              | some m =>
                  rw [htm] at h
                  injection h with h
                  injection h with h
                  subst h
                  simp
              | none =>
                  rw [htm] at h
                  cases hmp : merge_pass (c2 :: rest2) with
                  | none => rw [hmp] at h; exact Option.noConfusion h
                  | some s2 =>
                      cases s2 with
                      | none =>
                          rw [hmp] at h
                          injection h with h
                          exact Option.noConfusion h
                      | some out2 =>
                          rw [hmp] at h
                          injection h with h
                          injection h with h
                          subst h
                          have := ih out2 hmp
                          simp at this ⊢
                          omega

theorem merge_pass_short (curves : List (List Point)) (h : curves.length < 2) :
    merge_pass curves = some none := by
  match curves, h with
  | [], _ => rfl
  | [c], _ => rfl

theorem merge_loop_fixpoint :
    ∀ (fuel : ℕ) (curves out : List (List Point)), curves.length ≤ fuel + 1 →
      merge_loop fuel curves = some out → merge_pass out = some none := by
  intro fuel
  induction fuel with
  | zero =>
      intro curves out hlen h
      injection h with h
      subst h
      exact merge_pass_short curves (by omega)
  | succ n ih =>
      intro curves out hlen h
      rw [merge_loop] at h
      cases hmp : merge_pass curves with
      | none => rw [hmp] at h; exact Option.noConfusion h
      | some s =>
          cases s with
          | none =>
              rw [hmp] at h
              injection h with h
              subst h
              exact hmp
          | some mid =>
              rw [hmp] at h
              have hmid := merge_pass_length curves mid hmp
              exact ih mid out (by omega) h

/-- C8 — `merge_curves_sequentially` is idempotent: whenever it returns a
list (it panics only on adjacent empty curves), running it again on that
output returns the output unchanged, because the first run only stops once a
full pass merges no adjacent pair. -/
theorem merge_curves_sequentially_idempotent (curves out : List (List Point))
    (h : merge_curves_sequentially curves = some out) :
    merge_curves_sequentially out = some out := by
  unfold merge_curves_sequentially at h ⊢
  by_cases hlen : curves.length < 2
  · rw [if_pos hlen] at h
    injection h with h
    subst h
    rw [if_pos hlen]
  · rw [if_neg hlen] at h
    have hfix : merge_pass out = some none :=
      merge_loop_fixpoint curves.length curves out (by omega) h
    by_cases hlen2 : out.length < 2
    · rw [if_pos hlen2]
    · rw [if_neg hlen2]
      obtain ⟨k, hk⟩ : ∃ k, out.length = k + 1 := ⟨out.length - 1, by omega⟩
      rw [hk, merge_loop, hfix]

/-- C8 witness — idempotence applied to the concrete chain of the two
collinear line segments `(0,0)-(1,1)` and `(1,1)-(2,2)`, which the first run
merges into the single line `(0,0)-(2,2)`. -/
theorem merge_curves_sequentially_idempotent_witness :
    merge_curves_sequentially [[⟨0, 0⟩, ⟨2, 2⟩]] = some [[⟨0, 0⟩, ⟨2, 2⟩]] := by
  apply merge_curves_sequentially_idempotent [[⟨0, 0⟩, ⟨1, 1⟩], [⟨1, 1⟩, ⟨2, 2⟩]]
  have hlin : merge_split_bezier_curves [⟨0, 0⟩, ⟨1, 1⟩] [⟨1, 1⟩, ⟨2, 2⟩]
      = some [⟨0, 0⟩, ⟨2, 2⟩] := by
    unfold merge_split_bezier_curves
    rw [if_neg (by decide)]
    rw [show (([⟨0, 0⟩, ⟨1, 1⟩] : List Point).getLast?.getD ⟨0, 0⟩) = (⟨1, 1⟩ : Point)
      from rfl]
    rw [show (([⟨1, 1⟩, ⟨2, 2⟩] : List Point).head?.getD ⟨0, 0⟩) = (⟨1, 1⟩ : Point) from rfl]
    rw [Point.sub_self]
    rw [if_neg (by rw [Point.length_zero]; norm_num)]
    show merge_split_linear_curves ⟨0, 0⟩ ⟨1, 1⟩ ⟨1, 1⟩ ⟨2, 2⟩ = some [⟨0, 0⟩, ⟨2, 2⟩]
    unfold merge_split_linear_curves
    rw [if_neg (by norm_num)]
    rw [if_neg (by norm_num)]
  have htm : try_merge_pair [⟨0, 0⟩, ⟨1, 1⟩] [⟨1, 1⟩, ⟨2, 2⟩]
      = some (some [⟨0, 0⟩, ⟨2, 2⟩]) := by
    unfold try_merge_pair
    rw [if_neg (by decide), if_neg (by decide)]
    rw [show (([⟨0, 0⟩, ⟨1, 1⟩] : List Point).getLast?.getD ⟨0, 0⟩) = (⟨1, 1⟩ : Point)
      from rfl]
    rw [show (([⟨1, 1⟩, ⟨2, 2⟩] : List Point).head?.getD ⟨0, 0⟩) = (⟨1, 1⟩ : Point) from rfl]
    rw [Point.sub_self]
    rw [if_pos (by rw [Point.length_zero]; norm_num)]
    rw [hlin]
  have hpass : merge_pass [[⟨0, 0⟩, ⟨1, 1⟩], [⟨1, 1⟩, ⟨2, 2⟩]]
      = some (some [[⟨0, 0⟩, ⟨2, 2⟩]]) := by
    rw [merge_pass, htm]
  unfold merge_curves_sequentially
  rw [if_neg (by decide)]
  rw [show ([[⟨0, 0⟩, ⟨1, 1⟩], [⟨1, 1⟩, ⟨2, 2⟩]] : List (List Point)).length = 1 + 1
    from rfl]
  rw [merge_loop, hpass]
  rfl

/-! ## Residuals, Jacobian and Gauss-Newton step (`least_square_fit_common.rs`) -/

/-- Predicted x-coordinate `a.row(i) * p_x` at parameter `t` for the control
points of `segment` (the fitting code only ever passes cubics, whose
`points()` has the four entries the 4-column design row expects). -/
def predicted_x (segment : BezierSegment) (t : ℝ) : ℝ :=
  ∑ j : Fin 4, design_row t j * (segment.points.map Point.x).getD j 0

/-- Predicted y-coordinate, as `predicted_x`. -/
def predicted_y (segment : BezierSegment) (t : ℝ) : ℝ :=
  ∑ j : Fin 4, design_row t j * (segment.points.map Point.y).getD j 0

/-- `compute_residual`: the flattened `2n` vector
`[.., B(t_i).x - x_i, B(t_i).y - y_i, ..]`. -/
def compute_residual (points : List Point) (t_values : List ℝ) (segment : BezierSegment) :
    List ℝ :=
  (t_values.zip points).flatMap
    (fun tp => [predicted_x segment tp.1 - tp.2.x, predicted_y segment tp.1 - tp.2.y])

/-- Euclidean norm of a vector, nalgebra's `.norm()`. -/
def vec_norm (v : List ℝ) : ℝ := Real.sqrt ((v.map (fun x => x * x)).sum)

/-- One row of `compute_polynomial_basis_derivative`: `[0, 1, 2t, 3t²]`. -/
def polynomial_basis_derivative_row (t : ℝ) : Fin 4 → ℝ := ![0, 1, 2 * t, 3 * t ^ 2]

/-- One row of the derivative design matrix `dCT/dt * B`. -/
def design_derivative_row (t : ℝ) (k : Fin 4) : ℝ :=
  ∑ j : Fin 4, polynomial_basis_derivative_row t j * bernstein_matrix j k

/-- `derivative_x` of `compute_jacobian` at one sample. -/
def derivative_x (segment : BezierSegment) (t : ℝ) : ℝ :=
  ∑ j : Fin 4, design_derivative_row t j * (segment.points.map Point.x).getD j 0

/-- `derivative_y` of `compute_jacobian` at one sample. -/
def derivative_y (segment : BezierSegment) (t : ℝ) : ℝ :=
  ∑ j : Fin 4, design_derivative_row t j * (segment.points.map Point.y).getD j 0

/-- The diagonal of `JᵀJ` (diagonal because each `t_i` only affects its own
residual pair). -/
def jtj_diag (points : List Point) (t_values : List ℝ) (segment : BezierSegment) : List ℝ :=
  (t_values.zip points).map
    (fun tp => derivative_x segment tp.1 ^ 2 + derivative_y segment tp.1 ^ 2)

/-- The vector `Jᵀr`. -/
def jtr_vec (points : List Point) (t_values : List ℝ) (segment : BezierSegment) : List ℝ :=
  (t_values.zip points).map
    (fun tp => derivative_x segment tp.1 * (predicted_x segment tp.1 - tp.2.x)
      + derivative_y segment tp.1 * (predicted_y segment tp.1 - tp.2.y))

/-- `get_delta_t`: solve the diagonal system `(JᵀJ)ΔT = -Jᵀr`.  nalgebra's LU
solve on a diagonal matrix succeeds exactly when every diagonal entry is
nonzero, in which case `ΔT_i = -(Jᵀr)_i / (JᵀJ)_{ii}`. -/
def get_delta_t (points : List Point) (t_values : List ℝ) (segment : BezierSegment) :
    Except String (List ℝ) :=
  if _h : ∀ x ∈ jtj_diag points t_values segment, x ≠ 0 then
    .ok (((jtj_diag points t_values segment).zip (jtr_vec points t_values segment)).map
      (fun p => -(p.2 / p.1)))
  else .error "Failed to solve linear system for getting the Gauss-Newton Delta t"

/-- `adjust_t_values`: force `t[0] = 0` and `t[last] = 1` (on the empty list
the source would panic indexing; `List.set` leaves it unchanged, a case no
caller reaches). -/
def adjust_t_values (t_values : List ℝ) : List ℝ :=
  (t_values.set 0 0).set (t_values.length - 1) 1

/-- `f64::clamp(lo, hi)` for `lo ≤ hi`. -/
def rclamp (x lo hi : ℝ) : ℝ := min (max x lo) hi

/-- `all_points_within_tolerance`: every sample within `tolerance` of its
nearest point on the segment (the source has two textually identical copies,
one in `least_square_fit_common.rs` and one in
`least_square_fit_weak_varpro.rs`). -/
def all_points_within_tolerance (segment : BezierSegment) (points : List Point)
    (tolerance : ℝ) : Prop :=
  ∀ p ∈ points, p.distance (segment.nearest_point p).1 ≤ tolerance

instance (segment : BezierSegment) (points : List Point) (tolerance : ℝ) :
    Decidable (all_points_within_tolerance segment points tolerance) :=
  List.decidableBAll _ points

/-! ## Alternating fit (`alternating_least_square_fit.rs`) and closed-form
entry point (`least_square_fit.rs`) -/

/-- `TUpdateMethod`: the two t-update strategies. -/
inductive TUpdateMethod where
  | NearestPoint
  | GaussNewton

/-- `update_t_values_nearest_point`: `t_i ← nearest_point(sample_i).t`. -/
def update_t_values_nearest_point (segment : BezierSegment) (points : List Point) :
    List ℝ :=
  points.map (fun p => (segment.nearest_point p).2)

/-- `update_t_values_gauss_newton`: Gauss-Newton step, clamp to `[0,1]`, then
pin the endpoints. -/
def update_t_values_gauss_newton (points : List Point) (t_values : List ℝ)
    (segment : BezierSegment) : Except String (List ℝ) :=
  match get_delta_t points t_values segment with
  | .error e => .error e
  | .ok delta_t =>
      .ok (adjust_t_values ((t_values.zip delta_t).map (fun p => rclamp (p.1 + p.2) 0 1)))

/-- The `for _ in 0..max_iterations` loop of `fit_cubic_bezier_alternating`. -/
def alternating_loop (points : List Point) (tolerance : ℝ) (update_method : TUpdateMethod) :
    ℕ → List ℝ → BezierSegment → Except String BezierSegment
  | 0, _, segment => .ok segment
  | k + 1, t_values, segment =>
      if all_points_within_tolerance segment points tolerance then .ok segment
      else
        match (match update_method with
          | .NearestPoint => Except.ok (update_t_values_nearest_point segment points)
          | .GaussNewton => update_t_values_gauss_newton points t_values segment) with
        | .error e => .error e
        | .ok new_t_values =>
            match least_square_solve_p_given_t points new_t_values with
            | .error e => .error e
            | .ok seg2 => alternating_loop points tolerance update_method k new_t_values seg2

/-- `fit_cubic_bezier_alternating`: guard, chord-length initialization,
initial solve, early return at `max_iterations == 0`, then the loop. -/
def fit_cubic_bezier_alternating (points : List Point) (max_iterations : ℕ)
    (tolerance : ℝ) (update_method : TUpdateMethod) : Except String BezierSegment :=
  if points.length < 4 then
    .error "At least 4 points are required for cubic bezier fitting"
  else
    match least_square_solve_p_given_t points
        (estimate_t_values_with_heuristic points .ChordLength) with
    | .error e => .error e
    | .ok segment =>
        if max_iterations = 0 then .ok segment
        else alternating_loop points tolerance update_method max_iterations
          (estimate_t_values_with_heuristic points .ChordLength) segment

/-- `fit_cubic_bezier_with_heuristic` (`least_square_fit.rs`): guard, estimate
t with the chosen heuristic, solve. -/
def fit_cubic_bezier_with_heuristic (points : List Point) (heuristic : THeuristic) :
    Except String BezierSegment :=
  if points.length < 4 then
    .error "At least 4 points are required for cubic bezier fitting"
  else least_square_solve_p_given_t points
    (estimate_t_values_with_heuristic points heuristic)

/-! ## Weak variable projection fit (`least_square_fit_weak_varpro.rs`) -/

/-- `GradientParams` with its `Default` values. -/
structure GradientParams where
  min_step_size : ℝ
  max_step_size : ℝ
  num_random_samples : ℕ
  random_scale : ℝ

instance : Inhabited GradientParams := ⟨⟨1e-6, 10, 10, 1 / 100⟩⟩

/-- `compute_step_loss`: residual norm of the re-solved curve at
`t + step·Δt`; the source `.unwrap()`s the solve, so a failed solve panics
(`none`). -/
def compute_step_loss (points : List Point) (t_values delta_t : List ℝ)
    (step_size : ℝ) : Option ℝ :=
  match least_square_solve_p_given_t points
      ((t_values.zip delta_t).map (fun p => rclamp (p.1 + step_size * p.2) 0 1)) with
  | .error _ => none
  | .ok seg => some (vec_norm (compute_residual points
      ((t_values.zip delta_t).map (fun p => rclamp (p.1 + step_size * p.2) 0 1)) seg))

/-- The golden-ratio refinement loop of `find_best_step_size_linesearch`,
state `(a, b, c, d, fc, fd)`, one new loss evaluation per step. -/
def golden_loop (points : List Point) (t_values delta_t : List ℝ) :
    ℕ → ℝ → ℝ → ℝ → ℝ → ℝ → ℝ → Option (ℝ × ℝ)
  | 0, a, b, _, _, _, _ => some (a, b)
  | n + 1, a, b, c, d, fc, fd =>
      if fc < fd then
        match compute_step_loss points t_values delta_t
            (d - 0.618033988749895 * (d - a)) with
        | none => none
        | some fc2 => golden_loop points t_values delta_t n a d
            (d - 0.618033988749895 * (d - a)) c fc2 fc
      else
        match compute_step_loss points t_values delta_t
            (c + 0.618033988749895 * (b - c)) with
        | none => none
        | some fd2 => golden_loop points t_values delta_t n c b d
            (c + 0.618033988749895 * (b - c)) fd fd2

/-- `find_best_step_size_linesearch`: golden-section search over
`[min_step, max_step]`, returning the midpoint of the final interval. -/
def find_best_step_size_linesearch (points : List Point) (t_values delta_t : List ℝ)
    (min_step max_step : ℝ) (num_steps : ℕ) : Option ℝ :=
  match compute_step_loss points t_values delta_t
      (max_step - 0.618033988749895 * (max_step - min_step)) with
  | none => none
  | some fc =>
      match compute_step_loss points t_values delta_t
          (min_step + 0.618033988749895 * (max_step - min_step)) with
      | none => none
      | some fd =>
          match golden_loop points t_values delta_t num_steps min_step max_step
              (max_step - 0.618033988749895 * (max_step - min_step))
              (min_step + 0.618033988749895 * (max_step - min_step)) fc fd with
          | none => none
          | some ab => some ((ab.1 + ab.2) / 2)

/-- `generate_t_variations` with the thread-local RNG made explicit: `noise`
is the stream of `Normal(0, random_scale)` samples `thread_rng` would
produce, consumed in drawing order (variation `k`, element `i` uses sample
`k * len + i`).  The source itself calls `rand::thread_rng()` here — ambient
global state, with no way to inject or seed a generator through the public
API. -/
def generate_t_variations (noise : ℕ → ℝ) (base_t_values delta_t : List ℝ)
    (params : GradientParams) : List (List ℝ) :=
  base_t_values :: (List.range params.num_random_samples).map (fun k =>
    adjust_t_values (((base_t_values.zip delta_t).enum).map (fun e =>
      rclamp (e.2.1 + noise (k * base_t_values.length + e.1) * e.2.2) 0 1)))

/-- `find_best_t_values`: re-solve every candidate (an `.unwrap()` panic on
any failure, `none`), then keep the smallest loss; the `f64::INFINITY` seed
of the source fold is modelled by seeding with the first candidate, which
any real loss beats. -/
def find_best_t_values (points : List Point) (variations : List (List ℝ)) :
    Option (List ℝ × ℝ) :=
  match variations.mapM (fun t => match least_square_solve_p_given_t points t with
    | .error _ => none
    | .ok seg => some (t, vec_norm (compute_residual points t seg))) with
  | none => none
  | some [] => none
  | some (c0 :: cs) => some (cs.foldl (fun best c => if c.2 < best.2 then c else best) c0)

/-- `update_t_values_weak_varpro`: Gauss-Newton direction, golden-section
step, random variations, best candidate; accept only when the best loss is
strictly below the current one, otherwise keep `t` and the current loss.
`none` collapses both the `?`-propagated `Err` and the `.unwrap()` panics of
the inner helpers, none of which the claims touch. -/
def update_t_values_weak_varpro (noise : ℕ → ℝ) (points : List Point)
    (t_values : List ℝ) (segment : BezierSegment) (params : GradientParams) :
    Option (List ℝ × ℝ) :=
  match get_delta_t points t_values segment with
  | .error _ => none
  | .ok delta_t =>
      match find_best_step_size_linesearch points t_values delta_t
          params.min_step_size params.max_step_size 10 with
      | none => none
      | some best_step_size =>
          match find_best_t_values points
              (generate_t_variations noise
                (adjust_t_values ((t_values.zip delta_t).map
                  (fun p => rclamp (p.1 + best_step_size * p.2) 0 1))) delta_t params
                ++ [adjust_t_values ((t_values.zip delta_t).map
                  (fun p => rclamp (p.1 + best_step_size * p.2) 0 1))]) with
          | none => none
          | some (best_t_values, best_loss) =>
              if best_loss < vec_norm (compute_residual points t_values segment) then
                some (best_t_values, best_loss)
              else some (t_values, vec_norm (compute_residual points t_values segment))

/-- The `for _ in 0..max_iterations` loop of `fit_cubic_bezier_weak_varpro`;
the noise stream advances by the samples one iteration consumes. -/
def varpro_loop (points : List Point) (tolerance : ℝ) (params : GradientParams) :
    (ℕ → ℝ) → ℕ → List ℝ → BezierSegment → ℝ → Except String BezierSegment
  | _, 0, _, segment, _ => .ok segment
  | noise, k + 1, t_values, segment, prev_loss =>
      if all_points_within_tolerance segment points tolerance then .ok segment
      else
        match update_t_values_weak_varpro noise points t_values segment params with
        | none => .error "Failed to solve linear system for getting the Gauss-Newton Delta t"
        | some (new_t_values, new_loss) =>
            if prev_loss < new_loss then .ok segment
            else
              match least_square_solve_p_given_t points new_t_values with
              | .error e => .error e
              | .ok seg2 =>
                  varpro_loop points tolerance params
                    (fun i => noise (i + params.num_random_samples * t_values.length))
                    k new_t_values seg2 new_loss

/-- `fit_cubic_bezier_weak_varpro` with the RNG stream explicit: guard,
chord-length initialization, initial solve and loss, early return at
`max_iterations == 0`, then the loop. -/
def fit_cubic_bezier_weak_varpro (noise : ℕ → ℝ) (points : List Point)
    (max_iterations : ℕ) (tolerance : ℝ) (gradient_params : Option GradientParams) :
    Except String BezierSegment :=
  if points.length < 4 then
    .error "At least 4 points are required for cubic bezier fitting"
  else
    match least_square_solve_p_given_t points
        (estimate_t_values_with_heuristic points .ChordLength) with
    | .error e => .error e
    | .ok segment =>
        if max_iterations = 0 then .ok segment
        else varpro_loop points tolerance (gradient_params.getD default) noise
          max_iterations (estimate_t_values_with_heuristic points .ChordLength) segment
          (vec_norm (compute_residual points
            (estimate_t_values_with_heuristic points .ChordLength) segment))

/-! ## C9: zero iterations reduce to the closed-form chord-length fit -/

/-- C9 — with at least 4 points, `fit_cubic_bezier_alternating` (either
update strategy) and `fit_cubic_bezier_weak_varpro` called with
`max_iterations = 0` return exactly the result of the closed-form
least-squares fit with chord-length parameterization, errors included. -/
theorem fit_zero_iterations_agree (points : List Point) (tolerance : ℝ)
    (update_method : TUpdateMethod) (noise : ℕ → ℝ) (params : Option GradientParams)
    (h : 4 ≤ points.length) :
    fit_cubic_bezier_alternating points 0 tolerance update_method
      = fit_cubic_bezier_with_heuristic points .ChordLength ∧
    fit_cubic_bezier_weak_varpro noise points 0 tolerance params
      = fit_cubic_bezier_with_heuristic points .ChordLength := by
  unfold fit_cubic_bezier_alternating fit_cubic_bezier_weak_varpro
    fit_cubic_bezier_with_heuristic
  rw [if_neg (by omega), if_neg (by omega), if_neg (by omega)]
  constructor <;>
  · cases hs : least_square_solve_p_given_t points
        (estimate_t_values_with_heuristic points .ChordLength) with
    | error e => rfl
    | ok s => rfl

/-- C9 witness: the agreement at a concrete 4-point input. -/
theorem fit_zero_iterations_agree_witness :
    fit_cubic_bezier_alternating [⟨0, 0⟩, ⟨1, 1⟩, ⟨2, 0⟩, ⟨3, 1⟩] 0 (1 / 1000)
        TUpdateMethod.NearestPoint
      = fit_cubic_bezier_with_heuristic [⟨0, 0⟩, ⟨1, 1⟩, ⟨2, 0⟩, ⟨3, 1⟩] .ChordLength ∧
    fit_cubic_bezier_weak_varpro (fun _ => 0) [⟨0, 0⟩, ⟨1, 1⟩, ⟨2, 0⟩, ⟨3, 1⟩] 0 (1 / 1000)
        none
      = fit_cubic_bezier_with_heuristic [⟨0, 0⟩, ⟨1, 1⟩, ⟨2, 0⟩, ⟨3, 1⟩] .ChordLength :=
  fit_zero_iterations_agree [⟨0, 0⟩, ⟨1, 1⟩, ⟨2, 0⟩, ⟨3, 1⟩] (1 / 1000)
    TUpdateMethod.NearestPoint (fun _ => 0) none (by decide)

/-! ## C4: the weak-varpro update never raises the loss, so the loop's
`prev_loss < new_loss` break never fires -/

/-- C4 — whenever `update_t_values_weak_varpro` returns, the loss it reports
is at most the residual norm of the incoming `(t_values, segment)` state
(the `original_loss` the caller tracks as `prev_loss`): the best candidate is
accepted only when strictly smaller, and otherwise the old state and loss
are returned unchanged.  Hence the loop's early exit `if prev_loss <
new_loss { break }` can never trigger — non-improving iterations continue
instead of stopping. -/
theorem update_t_values_weak_varpro_loss_le (noise : ℕ → ℝ) (points : List Point)
    (t_values : List ℝ) (segment : BezierSegment) (params : GradientParams) :
    (update_t_values_weak_varpro noise points t_values segment params).elim True
      (fun r => r.2 ≤ vec_norm (compute_residual points t_values segment)) := by
  unfold update_t_values_weak_varpro
  cases hd : get_delta_t points t_values segment with
  | error e => exact trivial
  | ok delta_t =>
      dsimp only
      cases hs : find_best_step_size_linesearch points t_values delta_t
          params.min_step_size params.max_step_size 10 with
      | none => exact trivial
      | some best_step_size =>
          dsimp only
          cases hb : find_best_t_values points
              (generate_t_variations noise
                (adjust_t_values ((t_values.zip delta_t).map
                  (fun p => rclamp (p.1 + best_step_size * p.2) 0 1))) delta_t params
                ++ [adjust_t_values ((t_values.zip delta_t).map
                  (fun p => rclamp (p.1 + best_step_size * p.2) 0 1))]) with
          | none => exact trivial
          | some bt =>
              obtain ⟨best_t_values, best_loss⟩ := bt
              dsimp only
              by_cases hlt : best_loss
                  < vec_norm (compute_residual points t_values segment)
              · rw [if_pos hlt]
                exact le_of_lt hlt
              · rw [if_neg hlt]
                exact le_refl _

/-! ## C3: the random variations depend on the ambient RNG stream -/

/-- C3 — with the thread-local RNG modelled as an explicit sample stream,
`generate_t_variations` produces different candidate lists for different
streams on identical inputs: the stream drawing all zeros keeps the base
vector, the stream drawing `1/10` moves the middle parameter.  The source
obtains this stream from `rand::thread_rng()` — ambient global state, not an
injected, seedable generator — so two runs of the surrounding fit on
identical inputs need not produce identical segments. -/
theorem generate_t_variations_depends_on_rng :
    generate_t_variations (fun _ => 0) [0, 1 / 2, 1] [1, 1, 1] ⟨1e-6, 10, 1, 1 / 100⟩
      ≠ generate_t_variations (fun _ => 1 / 10) [0, 1 / 2, 1] [1, 1, 1]
        ⟨1e-6, 10, 1, 1 / 100⟩ := by
  intro h
  rw [show generate_t_variations (fun _ => 0) [0, 1 / 2, 1] [1, 1, 1]
        ⟨1e-6, 10, 1, 1 / 100⟩
      = [[0, 1 / 2, 1], [0, rclamp (1 / 2 + 0 * 1) 0 1, 1]] from rfl] at h
  rw [show generate_t_variations (fun _ => 1 / 10) [0, 1 / 2, 1] [1, 1, 1]
        ⟨1e-6, 10, 1, 1 / 100⟩
      = [[0, 1 / 2, 1], [0, rclamp (1 / 2 + 1 / 10 * 1) 0 1, 1]] from rfl] at h
  have hmid : rclamp (1 / 2 + 0 * 1) 0 1 = rclamp (1 / 2 + 1 / 10 * 1) 0 1 := by
    have h2 := congrArg (fun l => (l.getD 1 []).getD 1 0) h
    simpa using h2
  have e1 : rclamp (1 / 2 + 0 * 1 : ℝ) 0 1 = 1 / 2 := by
    unfold rclamp
    rw [show (1 / 2 + 0 * 1 : ℝ) = 1 / 2 by ring]
    rw [max_eq_left (by norm_num), min_eq_left (by norm_num)]
  have e2 : rclamp (1 / 2 + 1 / 10 * 1 : ℝ) 0 1 = 3 / 5 := by
    unfold rclamp
    rw [show (1 / 2 + 1 / 10 * 1 : ℝ) = 3 / 5 by ring]
    rw [max_eq_left (by norm_num), min_eq_left (by norm_num)]
  rw [e1, e2] at hmid
  norm_num at hmid

end

end Houjing
